import Mathlib

/-!
Verification development for the memo_ai backend (src/api/index.py and
src/api/llm_client.py).  Text is embedded as `List Char` (Python strings are
sequences of code points).  Every definition is a direct translation of the
corresponding Python code; deviations forced by totality (fuel, unreachable
corners) are noted in the doc comments.
-/

/-! ### Basic text helpers -/

/-- `startsWithLit lit s` is true when `lit` is an initial segment of `s`. -/
def startsWithLit : List Char → List Char → Bool
  | [], _ => true
  | _ :: _, [] => false
  | a :: as, b :: bs => a = b && startsWithLit as bs

/-- `isInfixLit pat s`: `pat` occurs as a contiguous substring of `s`
(Python's `pat in s` for strings). -/
def isInfixLit (pat : List Char) : List Char → Bool
  | [] => startsWithLit pat []
  | c :: rest => startsWithLit pat (c :: rest) || isInfixLit pat rest

/-- Offset of the first position of `s` where `lit` starts, if any. -/
def findLit (lit : List Char) : List Char → Option Nat
  | [] => if startsWithLit lit [] then some 0 else none
  | c :: rest =>
    if startsWithLit lit (c :: rest) then some 0
    else (findLit lit rest).map (· + 1)

/-- Offset of the first occurrence of character `ch` in `s`, if any. -/
def findChar (ch : Char) : List Char → Option Nat
  | [] => none
  | c :: rest => if c = ch then some 0 else (findChar ch rest).map (· + 1)

/-! ### Model of `re.sub(pattern, '', text)` for the two fixed patterns of
`sanitize_image_data` (src/api/index.py lines 145-160), and of
`str.replace`/`str.strip`. -/

/-- A matcher returns the length of the (unique, engine-chosen) match starting
at the head of the given suffix, or `none`. -/
def MatcherT : Type := List Char → Option Nat

/-- Matcher for the Python regex `!\[.*?\]\(data:image\/.*?\)` with `re.DOTALL`
(line 155), tried at the head of `s`.  Leftmost-match semantics of the lazy
quantifiers: after the literal `![`, the first `.*?` extends to the first
occurrence of the literal `](data:image/`; the second `.*?` extends to the
first following `)`.  (If the first occurrence of `](data:image/` is not
followed by any `)`, no later occurrence is either, so no backtracking over
the occurrence choice can succeed.) -/
def matchR1At (s : List Char) : Option Nat :=
  if startsWithLit "![".toList s then
    match findLit "](data:image/".toList (s.drop 2) with
    | none => none
    | some j =>
      match findChar ')' (s.drop (2 + j + 13)) with
      | none => none
      | some k => some (2 + j + 13 + k + 1)
  else none

/-- One character of the class `["\']` (a double or single quote). -/
def isQuote (c : Char) : Bool := c.toNat = 34 || c.toNat = 39

/-- Tail of the regex `<img[^>]+src=["\']data:image\/[^"\']+["\'][^>]*>`
after `<img` and a chosen length `a` for the greedy `[^>]+`: checks
`src=`, an opening quote, `data:image/`, a maximal nonempty run of
non-quote characters, a closing quote, a maximal run of non-`>` characters
and the final `>`.  (The three runs admit no backtracking: shortening any
of them leaves the next character failing the subsequent literal.)
Returns the length matched after the `[^>]+` part. -/
def checkAfterA (rest : List Char) (a : Nat) : Option Nat :=
  let t := rest.drop a
  if startsWithLit "src=".toList t then
    match t.drop 4 with
    | q :: t2 =>
      if isQuote q then
        if startsWithLit "data:image/".toList t2 then
          let t3 := t2.drop 11
          let b := (t3.takeWhile (fun c => !isQuote c)).length
          if b = 0 then none
          else
            match t3.drop b with
            | q2 :: t4 =>
              if isQuote q2 then
                let cl := (t4.takeWhile (fun c => c ≠ '>')).length
                match t4.drop cl with
                | _ :: _ => some (4 + 1 + 11 + b + 1 + cl + 1)
                | [] => none
              else none
            | [] => none
        else none
      else none
    | [] => none
  else none

/-- Backtracking over the greedy `[^>]+`: try the longest feasible length
first, down to 1. -/
def tryA (rest : List Char) : Nat → Option Nat
  | 0 => none
  | a + 1 =>
    match checkAfterA rest (a + 1) with
    | some tailLen => some (4 + (a + 1) + tailLen)
    | none => tryA rest a

/-- Matcher for the Python regex `<img[^>]+src=["\']data:image\/[^"\']+["\'][^>]*>`
with `re.DOTALL` (line 157), tried at the head of `s`. -/
def matchR2At (s : List Char) : Option Nat :=
  if startsWithLit "<img".toList s then
    let rest := s.drop 4
    tryA rest ((rest.takeWhile (fun c => c ≠ '>')).length)
  else none

/-- The literal marker `[画像送信]` removed on line 159. -/
def markerChars : List Char := "[画像送信]".toList

/-- Matcher for a fixed literal (used to model `str.replace(marker, "")`). -/
def matchMarkerAt (s : List Char) : Option Nat :=
  if startsWithLit markerChars s then some markerChars.length else none

/-- Global substitution by the empty string: scan left to right, remove each
leftmost match and continue after it (semantics of `re.sub(p, '', s)` and of
`str.replace(m, '')`).  Fuel-based for structural termination; a match always
has positive length for the matchers above, and `fuel = s.length + 1`
suffices since every step consumes at least one character.  A (never
occurring) zero-length match is skipped over like a non-match. -/
def subAllFuel (matchAt : List Char → Option Nat) : Nat → List Char → List Char
  | 0, s => s
  | _ + 1, [] => []
  | fuel + 1, c :: rest =>
    match matchAt (c :: rest) with
    | some (len + 1) => subAllFuel matchAt fuel (rest.drop len)
    | _ => c :: subAllFuel matchAt fuel rest

def subAll (matchAt : List Char → Option Nat) (s : List Char) : List Char :=
  subAllFuel matchAt (s.length + 1) s

/-- The characters removed by Python's `str.strip()` (ASCII whitespace; the
additional Unicode whitespace characters never occur in this development). -/
def pyIsSpace (c : Char) : Bool :=
  c = ' ' || c = '\t' || c = '\n' || c = '\r' || c.toNat = 11 || c.toNat = 12

/-- Python `str.strip()`. -/
def pyStrip (s : List Char) : List Char :=
  (((s.dropWhile pyIsSpace).reverse).dropWhile pyIsSpace).reverse

/-- `sanitize_image_data` (src/api/index.py lines 145-160): remove
markdown data-URI images, HTML `img` tags with data-URI source, and the
literal marker `[画像送信]`, then strip surrounding whitespace. -/
def sanitize_image_data (text : List Char) : List Char :=
  let t1 := subAll matchR1At text
  let t2 := subAll matchR2At t1
  let t3 := subAll matchMarkerAt t2
  pyStrip t3

/-! ### Chunking (src/api/index.py lines 793-802 and 812-819) -/

/-- Fuel-based model of the Python loop
`for i in range(0, len(content), limit): content[i:i+limit]`.
For `0 < limit`, `fuel = content.length` suffices (each step consumes at
least one element). -/
def chunkLoopFuel {α : Type} : Nat → Nat → List α → List (List α)
  | 0, _, _ => []
  | fuel + 1, limit, content =>
    if content.isEmpty then []
    else content.take limit :: chunkLoopFuel fuel limit (content.drop limit)

/-- `[content[i:i+limit] for i in range(0, len(content), limit)]`. -/
def chunkLoop {α : Type} (limit : Nat) (content : List α) : List (List α) :=
  chunkLoopFuel content.length limit content

/-- Per-item splitting in the save flow (lines 793-802 for `rich_text`,
812-819 for `title`): a text longer than 2000 characters is replaced by its
consecutive 2000-character slices; otherwise it stays a single segment.
(The `else` branch of the Python code mutates the item in place; the
resulting value is the same single segment.) -/
def splitContent (content : List Char) : List (List Char) :=
  if 2000 < content.length then chunkLoop 2000 content else [content]

/-! ### JSON-like property values and the database branch of `save`
(src/api/index.py lines 771-828) -/

/-- Python values appearing in a `properties` dict: strings, numbers,
booleans, `None`, lists and (insertion-ordered) dicts with string keys. -/
inductive JVal : Type where
  | str (s : List Char)
  | num (n : Int)
  | bool (b : Bool)
  | null
  | arr (items : List JVal)
  | obj (fields : List (String × JVal))

/-- Dict key lookup (`k in d` / `d[k]`). -/
def getKey (k : String) : List (String × JVal) → Option JVal
  | [] => none
  | (k2, v) :: rest => if k2 = k then some v else getKey k rest

/-- Dict assignment `d[k] = v`: replace the entry if the key is present
(keys are unique in a Python dict), otherwise append. -/
def setKey (k : String) (v : JVal) : List (String × JVal) → List (String × JVal)
  | [] => [(k, v)]
  | (k2, v2) :: rest => if k2 = k then (k, v) :: rest else (k2, v2) :: setKey k v rest

/-- Python truthiness of a value. -/
def truthy : JVal → Bool
  | .str s => !s.isEmpty
  | .num n => n != 0
  | .bool b => b
  | .null => false
  | .arr items => !items.isEmpty
  | .obj fields => !fields.isEmpty

/-- Python iteration `for item in v`: lists yield their elements, strings
their one-character strings, dicts their keys; other values raise
`TypeError` (`none`). -/
def iterElems : JVal → Option (List JVal)
  | .arr items => some items
  | .str s => some (s.map (fun ch => JVal.str [ch]))
  | .obj fields => some (fields.map (fun kv => JVal.str kv.1.toList))
  | _ => none

/-- `Option`-valued map over a list (all-or-nothing, first failure wins),
mirroring a Python loop that can raise. -/
def mapOpt {α β : Type} (f : α → Option β) : List α → Option (List β)
  | [] => some []
  | a :: rest =>
    match f a with
    | none => none
    | some b => (mapOpt f rest).map (fun bs => b :: bs)

/-- The item value written for one segment: the original item with
`item["text"]["content"]` replaced by the segment (lines 796-798 build this
via shallow copies; line 801 mutates the item in place — same value). -/
def rebuildItem (fields tf : List (String × JVal)) (seg : List Char) : JVal :=
  .obj (setKey "text" (.obj (setKey "content" (.str seg) tf)) fields)

/-- One iteration of the per-item loop (lines 790-804 for `rich_text`,
810-823 for `title`): an item with a `"text"` key has its
`item["text"]["content"]` sanitized and split into at most 2000-character
segments; an item without the key is appended unchanged.  `none` models a
raised exception (caught by the endpoint's outer handler, HTTP 500):
a missing `"content"` key, a non-dict `item["text"]`, string content being
the only sanitized case mirrors `sanitize_val` (lines 777-780, applied to
non-strings it returns them unchanged, after which `len`/slicing raises for
numbers, booleans and `None`, and slicing raises for dicts).  For a
non-dict item, Python's `"text" in item` is a substring test on strings,
a membership test on lists, and a `TypeError` otherwise. -/
def processItem (item : JVal) : Option (List JVal) :=
  match item with
  | .obj fields =>
    match getKey "text" fields with
    | none => some [.obj fields]
    | some (.obj tf) =>
      match getKey "content" tf with
      | some (.str s) =>
        let content := sanitize_image_data s
        if 2000 < content.length then
          some ((chunkLoop 2000 content).map (rebuildItem fields tf))
        else
          some [rebuildItem fields tf content]
      | some (.arr xs) =>
        if 2000 < xs.length then
          some ((chunkLoop 2000 xs).map (fun seg =>
            JVal.obj (setKey "text" (.obj (setKey "content" (.arr seg) tf)) fields)))
        else some [.obj (setKey "text" (.obj (setKey "content" (.arr xs) tf)) fields)]
      | some (.obj ofs) =>
        if 2000 < ofs.length then none
        else some [.obj (setKey "text" (.obj (setKey "content" (.obj ofs) tf)) fields)]
      | some _ => none
      | none => none
    | some _ => none
  | .str s => if isInfixLit "text".toList s then none else some [.str s]
  | .arr xs =>
    if xs.any (fun x => match x with | .str t => t == "text".toList | _ => false)
    then none else some [.arr xs]
  | _ => none

/-- Processing of one truthy `val["rich_text"]` / `val["title"]` value:
iterate it, run each element through the item loop, and collect the new
item list (lines 789-805 / 809-824). -/
def processTruthyField (v : JVal) : Option JVal :=
  (iterElems v).bind fun items =>
    (mapOpt processItem items).map (fun ls => JVal.arr ls.flatten)

/-- `if k in val and val[k]: ... val[k] = new_list` for one of the two
text-bearing keys. -/
def processKeyField (k : String) (fields : List (String × JVal)) :
    Option (List (String × JVal)) :=
  match getKey k fields with
  | none => some fields
  | some v =>
    if truthy v then (processTruthyField v).map (fun nv => setKey k nv fields)
    else some fields

/-- The body of the per-property loop (lines 785-824): dict values get their
`"rich_text"` then their `"title"` entry rewritten; non-dict values are left
untouched. -/
def processVal : JVal → Option JVal
  | .obj fields =>
    (processKeyField "rich_text" fields).bind fun f1 =>
      (processKeyField "title" f1).map JVal.obj
  | v => some v

/-- The whole database branch up to the external write: the dict passed to
`create_page` (line 827) keeps every key in order, with each value processed
by the loop above. -/
def processProps (props : List (String × JVal)) : Option (List (String × JVal)) :=
  mapOpt (fun kv => (processVal kv.2).map (fun nv => (kv.1, nv))) props

/-- A property value the loop leaves untouched: a non-dict value, or a dict
containing neither a `"rich_text"` nor a `"title"` key. -/
def untouchedVal : JVal → Bool
  | .obj fields => (getKey "rich_text" fields).isNone && (getKey "title" fields).isNone
  | _ => true

/-! ### Page branch of `save` (src/api/index.py lines 747-770) -/

/-- Initial content selection (lines 749-754): `request.text or "No content"`,
overridden by `properties["Content"]["rich_text"][0]["text"]["content"]` when
the `Content` property carries one.  `none` models a raised exception
(malformed `Content` property); for a non-dict `Content` value Python's
`"rich_text" in c_obj` is a substring / membership test as in `processItem`. -/
def selectContent (text : Option (List Char)) (props : List (String × JVal)) :
    Option (List Char) :=
  let content := match text with
    | some t => if t.isEmpty then "No content".toList else t
    | none => "No content".toList
  match getKey "Content" props with
  | none => some content
  | some (.obj cf) =>
    match getKey "rich_text" cf with
    | none => some content
    | some (.arr (item :: _)) =>
      match item with
      | .obj itf =>
        match getKey "text" itf with
        | some (.obj tf) =>
          match getKey "content" tf with
          | some (.str s) => some s
          | some _ => none
          | none => none
        | some _ => none
        | none => none
      | _ => none
    | some (.arr []) => none
    | some _ => none
  | some (.str s) => if isInfixLit "rich_text".toList s then none else some content
  | some (.arr xs) =>
    if xs.any (fun x => match x with | .str t => t == "rich_text".toList | _ => false)
    then none else some content
  | some _ => none

/-- The truncation marker appended on line 764. -/
def truncMarker : List Char := "\n...(Truncated)...".toList

/-- Size guard (lines 762-764): content over 100,000 characters is cut to its
first 100,000 characters with the marker appended. -/
def truncateContent (c : List Char) : List Char :=
  if 100000 < c.length then c.take 100000 ++ truncMarker else c

/-- What the page branch produces: the content handed to `append_block` and
the response body fields. -/
structure PageSaveOutcome : Type where
  sentContent : List Char
  status : String
  url : String
deriving DecidableEq

/-- The page branch of `save` (lines 747-770): select the content, sanitize
it, truncate it, call `append_block` with it, ignore that call's returned
success flag (lines 766-768) and answer `{"status": "success", "url": ""}`.
`none` models an exception reaching the endpoint's handler (HTTP 500);
`appendSuccess` is the boolean returned by the external `append_block`. -/
def savePageBranch (text : Option (List Char)) (props : List (String × JVal))
    (appendSuccess : Bool) : Option PageSaveOutcome :=
  (selectContent text props).map fun c =>
    ⟨truncateContent (sanitize_image_data c), "success", ""⟩

/-! ### Chat flow message assembly (src/api/index.py lines 659-695) -/

/-- A chat message: a role and a text content. -/
structure ChatMsg : Type where
  role : String
  content : List Char
deriving DecidableEq

/-- Time-context injection (lines 672-673):
`system_prompt = f"Current Time: {current_time_str}\n\n{system_prompt}"`. -/
def timeInjected (now sys : List Char) : List Char :=
  "Current Time: ".toList ++ now ++ "\n\n".toList ++ sys

/-- Session-history construction (lines 677-681): `request.session_history or []`
with a truthy `reference_context` prepended as a synthetic system message. -/
def historyWithRef (rc : Option (List Char)) (hist : List ChatMsg) : List ChatMsg :=
  match rc with
  | some r => if r.isEmpty then hist else ⟨"system", r⟩ :: hist
  | none => hist

/-- Modelled from the spec: `chat_analyze_text_with_ai` lives in `api/ai.py`,
which is not under src/; only its call site (line 687) is.  Per spec section 4.1
the builder puts a system message carrying the instruction text first, the
history entries next in original order, and a final user turn carrying the task
text (text-only case, no image). -/
def chat_build_messages (sys : List Char) (hist : List ChatMsg) (task : List Char) :
    List ChatMsg :=
  ⟨"system", sys⟩ :: (hist ++ [⟨"user", task⟩])

/-- The message list the chat flow sends for a text-only request: the
composition of the time injection and history construction done in
`chat_endpoint` with the spec-modelled builder. -/
def chat_flow_messages (now sys : List Char) (rc : Option (List Char))
    (hist : List ChatMsg) (task : List Char) : List ChatMsg :=
  chat_build_messages (timeInjected now sys) (historyWithRef rc hist) task

/-! ### Completion client `generate_json` (src/api/llm_client.py lines 18-103) -/

/-- An exception raised inside one attempt's `try` block: a provider timeout,
any other provider error (each carrying its message), or the
`RuntimeError("Empty AI response")` raised on line 76. -/
inductive Exc : Type where
  | timeout (msg : List Char)
  | provider (msg : List Char)
  | emptyContent
deriving DecidableEq

/-- Python `str(e)` for the exceptions above. -/
def strExc : Exc → List Char
  | .timeout m => m
  | .provider m => m
  | .emptyContent => "Empty AI response".toList

/-- What one `acompletion` call does: raise, or return a response with a
content string, optional usage metadata (`none` models a response without a
`usage` attribute, line 79) and an optional cost (`none` models
`completion_cost` raising, lines 82-86). -/
inductive AttemptOutcome : Type where
  | exc (e : Exc)
  | ok (content : List Char) (usage : Option (List (String × Int))) (cost : Option Rat)

/-- The value `generate_json` returns (lines 88-93). -/
structure GenResult : Type where
  content : List Char
  usage : List (String × Int)
  cost : Rat
  model : List Char
deriving DecidableEq

/-- One attempt (the body of the `try`, lines 50-93): an exception propagates;
empty content raises `RuntimeError("Empty AI response")` (lines 74-76, also
covering a `None` content); otherwise the result dict is built with
`usage = response.usage.dict() if hasattr(response, 'usage') else {}` and
`cost` defaulting to `0.0` when `completion_cost` raised. -/
def runAttempt (model : List Char) (o : AttemptOutcome) : Except Exc GenResult :=
  match o with
  | .exc e => .error e
  | .ok content usage cost =>
    if content = [] then .error .emptyContent
    else .ok ⟨content, usage.getD [], cost.getD 0, model⟩

/-- Observable trace of a `generate_json` run: the returned value or the
message of the final `RuntimeError` (line 99), the `asyncio.sleep` durations
in seconds (line 103), and the number of attempts made. -/
structure RunTrace : Type where
  result : Except (List Char) GenResult
  sleeps : List Nat
  attemptsUsed : Nat

/-- The final error message built on line 99: `f"AI generation failed: {str(e)}"`. -/
def genFailMsg : List Char := "AI generation failed: ".toList

/-- The retry loop (lines 49-103): attempt indices run from `attempt` with
`rem` further attempts allowed after the current one.  On failure of the last
allowed attempt the wrapped error is raised; otherwise the loop sleeps
`2 * (attempt + 1)` seconds and retries. -/
def genLoop (attempts : Nat → AttemptOutcome) (model : List Char) :
    Nat → Nat → RunTrace
  | attempt, 0 =>
    match runAttempt model (attempts attempt) with
    | .ok r => ⟨.ok r, [], 1⟩
    | .error e => ⟨.error (genFailMsg ++ strExc e), [], 1⟩
  | attempt, rem + 1 =>
    match runAttempt model (attempts attempt) with
    | .ok r => ⟨.ok r, [], 1⟩
    | .error _ =>
      let t := genLoop attempts model (attempt + 1) rem
      ⟨t.result, 2 * (attempt + 1) :: t.sleeps, t.attemptsUsed + 1⟩

/-- `generate_json(prompt, model, retries)` with the provider behaviour
abstracted as the per-attempt outcome function `attempts` (the message
preparation of lines 52-62 only shapes the provider call and cannot raise).
`retries` is the resolved `max_retries` (line 46-47 substitutes the
configured default for `None`). -/
def generate_json_run (attempts : Nat → AttemptOutcome) (model : List Char)
    (retries : Nat) : RunTrace :=
  genLoop attempts model 0 retries

/-! ### Lemmas about chunking -/

theorem chunkLoopFuel_nil {α : Type} (fuel limit : Nat) :
    chunkLoopFuel fuel limit ([] : List α) = [] := by
  cases fuel <;> simp [chunkLoopFuel]

theorem chunkLoopFuel_flatten {α : Type} (limit : Nat) (hl : 0 < limit) :
    ∀ (fuel : Nat) (c : List α), c.length ≤ fuel →
      (chunkLoopFuel fuel limit c).flatten = c := by
  intro fuel
  induction fuel with
  | zero =>
    intro c hc
    have : c = [] := List.eq_nil_of_length_eq_zero (Nat.le_zero.mp hc)
    simp [this, chunkLoopFuel]
  | succ n ih =>
    intro c hc
    by_cases h : c = []
    · simp [h, chunkLoopFuel]
    · have hne : c.isEmpty = false := by simp [List.isEmpty_iff, h]
      have hlen : 0 < c.length := List.length_pos.mpr h
      have hdrop : (c.drop limit).length ≤ n := by
        simp only [List.length_drop]
        omega
      simp only [chunkLoopFuel, hne, Bool.false_eq_true, if_false, List.flatten_cons,
        ih (c.drop limit) hdrop, List.take_append_drop]

theorem chunkLoopFuel_len_le {α : Type} (limit : Nat) :
    ∀ (fuel : Nat) (c : List α) (seg : List α),
      seg ∈ chunkLoopFuel fuel limit c → seg.length ≤ limit := by
  intro fuel
  induction fuel with
  | zero => intro c seg h; simp [chunkLoopFuel] at h
  | succ n ih =>
    intro c seg h
    by_cases hc : c.isEmpty
    · simp [chunkLoopFuel, hc] at h
    · simp only [chunkLoopFuel, hc, Bool.false_eq_true, if_false, List.mem_cons] at h
      rcases h with h | h
      · subst h
        simp [List.length_take]
      · exact ih _ _ h

theorem chunkLoopFuel_congr {α : Type} (limit : Nat) (hl : 0 < limit) :
    ∀ (fuel fuel2 : Nat) (c : List α), c.length ≤ fuel → c.length ≤ fuel2 →
      chunkLoopFuel fuel limit c = chunkLoopFuel fuel2 limit c := by
  intro fuel
  induction fuel with
  | zero =>
    intro fuel2 c hc _
    have : c = [] := List.eq_nil_of_length_eq_zero (Nat.le_zero.mp hc)
    simp [this, chunkLoopFuel_nil]
  | succ n ih =>
    intro fuel2 c hc hc2
    by_cases h : c = []
    · simp [h, chunkLoopFuel_nil]
    · have hne : c.isEmpty = false := by simp [List.isEmpty_iff, h]
      have hlen : 0 < c.length := List.length_pos.mpr h
      cases fuel2 with
      | zero => omega
      | succ m =>
        have hdrop : (c.drop limit).length ≤ n := by
          simp only [List.length_drop]; omega
        have hdrop2 : (c.drop limit).length ≤ m := by
          simp only [List.length_drop]; omega
        simp only [chunkLoopFuel, hne, Bool.false_eq_true, if_false]
        rw [ih m (c.drop limit) hdrop hdrop2]

theorem chunkLoop_flatten {α : Type} (limit : Nat) (hl : 0 < limit) (c : List α) :
    (chunkLoop limit c).flatten = c :=
  chunkLoopFuel_flatten limit hl c.length c (Nat.le_refl _)

theorem chunkLoop_len_le {α : Type} (limit : Nat) (c seg : List α)
    (h : seg ∈ chunkLoop limit c) : seg.length ≤ limit :=
  chunkLoopFuel_len_le limit c.length c seg h

/-- Unfolding step of the chunk loop for a nonempty input. -/
theorem chunkLoop_step {α : Type} (limit : Nat) (hl : 0 < limit) (c : List α)
    (hc : c ≠ []) :
    chunkLoop limit c = c.take limit :: chunkLoop limit (c.drop limit) := by
  have hne : c.isEmpty = false := by simp [List.isEmpty_iff, hc]
  have hlen : 0 < c.length := List.length_pos.mpr hc
  cases hcl : c.length with
  | zero => omega
  | succ n =>
    have hdrop : (c.drop limit).length ≤ n := by
      simp only [List.length_drop]; omega
    unfold chunkLoop
    rw [hcl]
    simp only [chunkLoopFuel, hne, Bool.false_eq_true, if_false]
    rw [chunkLoopFuel_congr limit hl n (c.drop limit).length (c.drop limit) hdrop (Nat.le_refl _)]

/-! ### C1 and C8 -/

/-- C1: in the save flow, each title / rich_text text item is split into
consecutive segments of at most 2000 characters, in order, whose
concatenation is exactly the (sanitized) input text; a 4,500-character value
yields exactly the three segments of lengths 2000, 2000 and 500. -/
theorem save_chunk_spec (x : List Char) :
    (splitContent x).flatten = x ∧
    (∀ seg ∈ splitContent x, seg.length ≤ 2000) ∧
    (splitContent (sanitize_image_data x)).flatten = sanitize_image_data x ∧
    (x.length = 4500 → (splitContent x).map List.length = [2000, 2000, 500]) := by
  have gen : ∀ y : List Char,
      (splitContent y).flatten = y ∧ ∀ seg ∈ splitContent y, seg.length ≤ 2000 := by
    intro y
    constructor
    · unfold splitContent
      split
      · exact chunkLoop_flatten 2000 (by norm_num) y
      · simp
    · intro seg hseg
      unfold splitContent at hseg
      split at hseg
      · exact chunkLoop_len_le 2000 y seg hseg
      · rename_i h
        simp only [List.mem_singleton] at hseg
        subst hseg
        omega
  refine ⟨(gen x).1, (gen x).2, (gen (sanitize_image_data x)).1, ?_⟩
  intro hlen
  have h1 : 2000 < x.length := by omega
  have hx : x ≠ [] := by
    intro h
    rw [h] at hlen
    simp at hlen
  rw [splitContent, if_pos h1]
  rw [chunkLoop_step 2000 (by norm_num) x hx]
  have hl1 : (x.drop 2000).length = 2500 := by
    simp [List.length_drop, hlen]
  have hx1ne : x.drop 2000 ≠ [] := by
    intro h
    rw [h] at hl1
    simp at hl1
  rw [chunkLoop_step 2000 (by norm_num) _ hx1ne]
  have hl2 : ((x.drop 2000).drop 2000).length = 500 := by
    simp only [List.length_drop] at hl1 ⊢
    omega
  have hx2ne : (x.drop 2000).drop 2000 ≠ [] := by
    intro h
    rw [h] at hl2
    simp at hl2
  rw [chunkLoop_step 2000 (by norm_num) _ hx2ne]
  have hd : ((x.drop 2000).drop 2000).drop 2000 = [] := by
    apply List.eq_nil_of_length_eq_zero
    simp only [List.length_drop] at hl2 ⊢
    omega
  rw [hd]
  have hnil : chunkLoop 2000 ([] : List Char) = [] := by
    simp [chunkLoop, chunkLoopFuel_nil]
  rw [hnil]
  simp [List.length_take, hlen, hl1, hl2]

theorem save_chunk_spec_witness :
    (List.replicate 4500 'a').length = 4500 ∧
    (splitContent (List.replicate 4500 'a')).map List.length = [2000, 2000, 500] :=
  ⟨List.length_replicate 4500 'a',
   (save_chunk_spec (List.replicate 4500 'a')).2.2.2 (List.length_replicate 4500 'a')⟩

/-- C8 counterexample: the claim says a zero-length input produces an empty
segment list; in the save flow it in fact stays a single empty segment
(the split is only applied when the text exceeds 2000 characters). -/
theorem chunk_empty_cex : ¬ (splitContent [] = []) := by decide

/-- C8 amended: a zero-length text item passes through the save flow as a
single empty segment; the underlying slicing loop itself does return an
empty list on empty input, but it is reached only for texts longer than
2000 characters. -/
theorem chunk_empty_amended :
    splitContent [] = [[]] ∧ chunkLoop 2000 ([] : List Char) = [] := by decide

/-! ### Lemmas about the sanitizer -/

/-- No suffix of `s` has a match of `matchAt` at its head. -/
def noMatchAll (matchAt : List Char → Option Nat) : List Char → Bool
  | [] => (matchAt []).isNone
  | c :: rest => (matchAt (c :: rest)).isNone && noMatchAll matchAt rest

theorem subAllFuel_id (matchAt : List Char → Option Nat) :
    ∀ (fuel : Nat) (s : List Char), noMatchAll matchAt s = true →
      subAllFuel matchAt fuel s = s := by
  intro fuel
  induction fuel with
  | zero => intro s _; rfl
  | succ n ih =>
    intro s h
    cases s with
    | nil => rfl
    | cons c rest =>
      simp only [noMatchAll, Bool.and_eq_true, Option.isNone_iff_eq_none] at h
      simp only [subAllFuel, h.1, ih rest h.2]

theorem subAll_id (matchAt : List Char → Option Nat) (s : List Char)
    (h : noMatchAll matchAt s = true) : subAll matchAt s = s :=
  subAllFuel_id matchAt (s.length + 1) s h

theorem noMatchAll_r1 (s : List Char) (h : ∀ c ∈ s, c ≠ '!') :
    noMatchAll matchR1At s = true := by
  induction s with
  | nil => rfl
  | cons c rest ih =>
    have hc : c ≠ '!' := h c (List.mem_cons_self c rest)
    have hstart : startsWithLit ['!', '['] (c :: rest) = false := by
      simp [startsWithLit]
      intro hcc
      exact absurd hcc.symm hc
    simp only [noMatchAll, Bool.and_eq_true, Option.isNone_iff_eq_none]
    refine ⟨by simp [matchR1At, hstart], ih ?_⟩
    intro x hx
    exact h x (List.mem_cons_of_mem c hx)

theorem noMatchAll_r2 (s : List Char) (h : ∀ c ∈ s, c ≠ '<') :
    noMatchAll matchR2At s = true := by
  induction s with
  | nil => rfl
  | cons c rest ih =>
    have hc : c ≠ '<' := h c (List.mem_cons_self c rest)
    have hstart : startsWithLit ['<', 'i', 'm', 'g'] (c :: rest) = false := by
      simp [startsWithLit]
      intro hcc
      exact absurd hcc.symm hc
    simp only [noMatchAll, Bool.and_eq_true, Option.isNone_iff_eq_none]
    refine ⟨by simp [matchR2At, hstart], ih ?_⟩
    intro x hx
    exact h x (List.mem_cons_of_mem c hx)

theorem noMatchAll_marker (s : List Char) (h : ∀ c ∈ s, c ≠ '[') :
    noMatchAll matchMarkerAt s = true := by
  induction s with
  | nil => rfl
  | cons c rest ih =>
    have hc : c ≠ '[' := h c (List.mem_cons_self c rest)
    have hstart : startsWithLit markerChars (c :: rest) = false := by
      have ht : markerChars = '[' :: "画像送信]".toList := rfl
      rw [ht]
      simp only [startsWithLit, Bool.and_eq_false_iff]
      left
      simp
      intro hcc
      exact absurd hcc.symm hc
    simp only [noMatchAll, Bool.and_eq_true, Option.isNone_iff_eq_none]
    refine ⟨by simp [matchMarkerAt, hstart], ih ?_⟩
    intro x hx
    exact h x (List.mem_cons_of_mem c hx)

theorem dropWhile_all_false {α : Type} (p : α → Bool) (s : List α)
    (h : ∀ c ∈ s, p c = false) : s.dropWhile p = s := by
  cases s with
  | nil => rfl
  | cons c rest => simp [List.dropWhile_cons, h c (List.mem_cons_self c rest)]

theorem pyStrip_all_plain (s : List Char) (h : ∀ c ∈ s, pyIsSpace c = false) :
    pyStrip s = s := by
  unfold pyStrip
  rw [dropWhile_all_false pyIsSpace s h]
  rw [dropWhile_all_false pyIsSpace s.reverse (fun c hc => h c (List.mem_reverse.mp hc))]
  exact List.reverse_reverse s

/-- A character that none of the sanitizer's steps can touch. -/
def plainChar (c : Char) : Bool :=
  !(c = '!') && !(c = '<') && !(c = '[') && !(pyIsSpace c)

/-- On text made of plain characters `sanitize_image_data` is the identity. -/
theorem sanitize_plain (s : List Char) (h : ∀ c ∈ s, plainChar c = true) :
    sanitize_image_data s = s := by
  have hfacts : ∀ c ∈ s, c ≠ '!' ∧ c ≠ '<' ∧ c ≠ '[' ∧ pyIsSpace c = false := by
    intro c hc
    have hpc := h c hc
    simp only [plainChar, Bool.and_eq_true, Bool.not_eq_true', decide_eq_false_iff_not,
      Bool.not_eq_true] at hpc
    exact ⟨hpc.1.1.1, hpc.1.1.2, hpc.1.2, hpc.2⟩
  have hb : ∀ c ∈ s, c ≠ '!' := fun c hc => (hfacts c hc).1
  have hl : ∀ c ∈ s, c ≠ '<' := fun c hc => (hfacts c hc).2.1
  have hk : ∀ c ∈ s, c ≠ '[' := fun c hc => (hfacts c hc).2.2.1
  have hs : ∀ c ∈ s, pyIsSpace c = false := fun c hc => (hfacts c hc).2.2.2
  show pyStrip (subAll matchMarkerAt (subAll matchR2At (subAll matchR1At s))) = s
  rw [subAll_id matchR1At s (noMatchAll_r1 s hb)]
  rw [subAll_id matchR2At s (noMatchAll_r2 s hl)]
  rw [subAll_id matchMarkerAt s (noMatchAll_marker s hk)]
  exact pyStrip_all_plain s hs

theorem dropWhile_eq_self_of_prefix {α : Type} (p : α → Bool) (u v : List α)
    (hu : u.dropWhile p = u) (hv : v <+: u) : v.dropWhile p = v := by
  cases v with
  | nil => rfl
  | cons a v2 =>
    obtain ⟨t, ht⟩ := hv
    have ha : p a = false := by
      cases hpa : p a with
      | false => rfl
      | true =>
        exfalso
        have hstep : u.dropWhile p = (v2 ++ t).dropWhile p := by
          rw [← ht]
          simp [List.dropWhile_cons, hpa]
        have hlen1 : ((v2 ++ t).dropWhile p).length ≤ (v2 ++ t).length :=
          (List.dropWhile_suffix p).sublist.length_le
        have hlen2 : u.length = (v2 ++ t).length + 1 := by
          rw [← ht]
          simp
        have hEq := congrArg List.length (hu.symm.trans hstep)
        omega
    simp [List.dropWhile_cons, ha]

theorem pyStrip_dropWhile (t : List Char) :
    (pyStrip t).dropWhile pyIsSpace = pyStrip t := by
  apply dropWhile_eq_self_of_prefix pyIsSpace (t.dropWhile pyIsSpace)
  · exact List.dropWhile_idempotent _ _
  · show pyStrip t <+: t.dropWhile pyIsSpace
    have h := List.reverse_prefix.mpr
      (@List.dropWhile_suffix Char ((t.dropWhile pyIsSpace).reverse) pyIsSpace)
    rwa [List.reverse_reverse] at h

theorem pyStrip_idem (t : List Char) : pyStrip (pyStrip t) = pyStrip t := by
  show (((pyStrip t).dropWhile pyIsSpace).reverse.dropWhile pyIsSpace).reverse = pyStrip t
  rw [pyStrip_dropWhile t]
  show ((((((t.dropWhile pyIsSpace).reverse).dropWhile pyIsSpace).reverse).reverse).dropWhile
    pyIsSpace).reverse = pyStrip t
  rw [List.reverse_reverse, List.dropWhile_idempotent]
  rfl

/-! ### Length bounds for the sanitizer steps.  Substitution never lengthens
the text; when some suffix has a match it strictly shortens it (every match of
the three matchers has positive length). -/

theorem subAllFuel_length_le (matchAt : List Char → Option Nat) :
    ∀ (fuel : Nat) (s : List Char), (subAllFuel matchAt fuel s).length ≤ s.length := by
  intro fuel
  induction fuel with
  | zero => intro s; exact Nat.le_refl _
  | succ n ih =>
    intro s
    cases s with
    | nil => simp [subAllFuel]
    | cons c rest =>
      cases hm : matchAt (c :: rest) with
      | none =>
        simp only [subAllFuel, hm, List.length_cons]
        exact Nat.succ_le_succ (ih rest)
      | some k =>
        cases k with
        | zero =>
          simp only [subAllFuel, hm, List.length_cons]
          exact Nat.succ_le_succ (ih rest)
        | succ len =>
          simp only [subAllFuel, hm, List.length_cons]
          have h1 := ih (rest.drop len)
          have h2 : (rest.drop len).length ≤ rest.length := by
            simp [List.length_drop]
          omega

theorem subAll_length_le (matchAt : List Char → Option Nat) (s : List Char) :
    (subAll matchAt s).length ≤ s.length :=
  subAllFuel_length_le matchAt (s.length + 1) s

theorem subAllFuel_length_lt (matchAt : List Char → Option Nat)
    (hpos : ∀ t n, matchAt t = some n → n ≠ 0) (hnil : matchAt [] = none) :
    ∀ (fuel : Nat) (s : List Char), s.length ≤ fuel →
      noMatchAll matchAt s = false → (subAllFuel matchAt fuel s).length < s.length := by
  intro fuel
  induction fuel with
  | zero =>
    intro s hs h
    have hnilS : s = [] := List.eq_nil_of_length_eq_zero (Nat.le_zero.mp hs)
    subst hnilS
    simp [noMatchAll, hnil] at h
  | succ n ih =>
    intro s hs h
    cases s with
    | nil => simp [noMatchAll, hnil] at h
    | cons c rest =>
      cases hm : matchAt (c :: rest) with
      | some k =>
        cases k with
        | zero => exact absurd rfl (hpos (c :: rest) 0 hm)
        | succ len =>
          simp only [subAllFuel, hm, List.length_cons]
          have h1 := subAllFuel_length_le matchAt n (rest.drop len)
          have h2 : (rest.drop len).length ≤ rest.length := by
            simp [List.length_drop]
          omega
      | none =>
        have hrest : noMatchAll matchAt rest = false := by
          simp only [noMatchAll, hm, Option.isNone_none, Bool.true_and] at h
          exact h
        have hr : rest.length ≤ n := by
          simp only [List.length_cons] at hs
          omega
        simp only [subAllFuel, hm, List.length_cons]
        have := ih rest hr hrest
        omega

theorem subAll_length_lt (matchAt : List Char → Option Nat)
    (hpos : ∀ t n, matchAt t = some n → n ≠ 0) (hnil : matchAt [] = none)
    (s : List Char) (h : noMatchAll matchAt s = false) :
    (subAll matchAt s).length < s.length :=
  subAllFuel_length_lt matchAt hpos hnil (s.length + 1) s (Nat.le_succ _) h

theorem matchR1At_pos (t : List Char) (n : Nat) (h : matchR1At t = some n) : n ≠ 0 := by
  unfold matchR1At at h
  split at h
  · have hlit : "](data:image/".toList =
        ([']', '(', 'd', 'a', 't', 'a', ':', 'i', 'm', 'a', 'g', 'e', '/'] : List Char) := rfl
    cases hj : findLit ([']', '(', 'd', 'a', 't', 'a', ':', 'i', 'm', 'a', 'g', 'e', '/'] :
        List Char) (t.drop 2) with
    | none => simp [hj] at h
    | some j =>
      simp only [hlit, hj] at h
      cases hk : findChar ')' (t.drop (2 + j + 13)) with
      | none => simp [hk] at h
      | some k =>
        simp only [hk, Option.some.injEq] at h
        omega
  · simp at h

theorem tryA_pos (rest : List Char) : ∀ (a n : Nat), tryA rest a = some n → n ≠ 0 := by
  intro a
  induction a with
  | zero => intro n h; simp [tryA] at h
  | succ m ih =>
    intro n h
    simp only [tryA] at h
    cases hc : checkAfterA rest (m + 1) with
    | some tl =>
      simp only [hc, Option.some.injEq] at h
      omega
    | none =>
      simp only [hc] at h
      exact ih n h

theorem matchR2At_pos (t : List Char) (n : Nat) (h : matchR2At t = some n) : n ≠ 0 := by
  unfold matchR2At at h
  split at h
  · exact tryA_pos (t.drop 4) _ n h
  · simp at h

theorem matchMarkerAt_pos (t : List Char) (n : Nat) (h : matchMarkerAt t = some n) : n ≠ 0 := by
  unfold matchMarkerAt at h
  split at h
  · simp only [Option.some.injEq] at h
    subst h
    decide
  · simp at h

theorem pyStrip_length_le (t : List Char) : (pyStrip t).length ≤ t.length := by
  have h1 : ((t.dropWhile pyIsSpace).reverse.dropWhile pyIsSpace).length ≤
      (t.dropWhile pyIsSpace).reverse.length :=
    (List.dropWhile_suffix pyIsSpace).sublist.length_le
  have h2 : (t.dropWhile pyIsSpace).length ≤ t.length :=
    (List.dropWhile_suffix pyIsSpace).sublist.length_le
  unfold pyStrip
  simp only [List.length_reverse] at h1 ⊢
  omega

/-! ### C6 -/

/-- C6 counterexample: `sanitize_image_data` is not idempotent.  On the input
`[画[画像送信]像送信]` one application removes the inner marker occurrence and
splices the surrounding text into a fresh marker, which only a second
application removes (first pass gives `[画像送信]`, second pass gives the
empty string). -/
theorem sanitize_idem_cex :
    sanitize_image_data (sanitize_image_data "[画[画像送信]像送信]".toList) ≠
      sanitize_image_data "[画[画像送信]像送信]".toList := by decide

/-- C6 amended: `sanitize_image_data` is idempotent exactly on those inputs
whose first pass leaves no occurrence of either image pattern and no marker
occurrence — if a pass leaves such an occurrence, the next pass removes it
and strictly shortens the text, so the function is not idempotent there; in
general removing an occurrence can splice the surrounding text into a new
one that only a second application removes. -/
theorem sanitize_idem_amended (x : List Char) :
    sanitize_image_data (sanitize_image_data x) = sanitize_image_data x ↔
      (noMatchAll matchR1At (sanitize_image_data x) = true ∧
       noMatchAll matchR2At (sanitize_image_data x) = true ∧
       noMatchAll matchMarkerAt (sanitize_image_data x) = true) := by
  constructor
  · intro hid
    by_contra hno
    have hlt : (sanitize_image_data (sanitize_image_data x)).length <
        (sanitize_image_data x).length := by
      by_cases h1 : noMatchAll matchR1At (sanitize_image_data x) = true
      · by_cases h2 : noMatchAll matchR2At (sanitize_image_data x) = true
        · have h3 : noMatchAll matchMarkerAt (sanitize_image_data x) = false := by
            cases h3t : noMatchAll matchMarkerAt (sanitize_image_data x) with
            | true => exact absurd ⟨h1, h2, h3t⟩ hno
            | false => rfl
          show (pyStrip (subAll matchMarkerAt (subAll matchR2At (subAll matchR1At
            (sanitize_image_data x))))).length < (sanitize_image_data x).length
          rw [subAll_id _ _ h1, subAll_id _ _ h2]
          have hM := subAll_length_lt matchMarkerAt matchMarkerAt_pos rfl
            (sanitize_image_data x) h3
          have hS := pyStrip_length_le (subAll matchMarkerAt (sanitize_image_data x))
          omega
        · have h2f : noMatchAll matchR2At (sanitize_image_data x) = false := by
            cases h2t : noMatchAll matchR2At (sanitize_image_data x) with
            | true => exact absurd h2t h2
            | false => rfl
          show (pyStrip (subAll matchMarkerAt (subAll matchR2At (subAll matchR1At
            (sanitize_image_data x))))).length < (sanitize_image_data x).length
          rw [subAll_id _ _ h1]
          have hR2 := subAll_length_lt matchR2At matchR2At_pos rfl
            (sanitize_image_data x) h2f
          have hM := subAll_length_le matchMarkerAt
            (subAll matchR2At (sanitize_image_data x))
          have hS := pyStrip_length_le (subAll matchMarkerAt (subAll matchR2At
            (sanitize_image_data x)))
          omega
      · have h1f : noMatchAll matchR1At (sanitize_image_data x) = false := by
          cases h1t : noMatchAll matchR1At (sanitize_image_data x) with
          | true => exact absurd h1t h1
          | false => rfl
        show (pyStrip (subAll matchMarkerAt (subAll matchR2At (subAll matchR1At
          (sanitize_image_data x))))).length < (sanitize_image_data x).length
        have hR1 := subAll_length_lt matchR1At matchR1At_pos rfl
          (sanitize_image_data x) h1f
        have hle2 := subAll_length_le matchR2At (subAll matchR1At (sanitize_image_data x))
        have hleM := subAll_length_le matchMarkerAt (subAll matchR2At (subAll matchR1At
          (sanitize_image_data x)))
        have hS := pyStrip_length_le (subAll matchMarkerAt (subAll matchR2At (subAll
          matchR1At (sanitize_image_data x))))
        omega
    have hlen := congrArg List.length hid
    omega
  · rintro ⟨h1, h2, h3⟩
    show pyStrip (subAll matchMarkerAt (subAll matchR2At (subAll matchR1At
      (sanitize_image_data x)))) = sanitize_image_data x
    rw [subAll_id _ _ h1, subAll_id _ _ h2, subAll_id _ _ h3]
    show pyStrip (pyStrip (subAll matchMarkerAt (subAll matchR2At (subAll matchR1At x)))) =
      sanitize_image_data x
    rw [pyStrip_idem]
    rfl

theorem sanitize_idem_amended_witness :
    sanitize_image_data (sanitize_image_data "hello".toList) =
      sanitize_image_data "hello".toList :=
  (sanitize_idem_amended "hello".toList).mpr ⟨by decide, by decide, by decide⟩

/-! ### C5 and C9 -/

/-- C5: in the page branch of `save`, once the sanitized payload exceeds
100,000 characters, the content handed to `append_block` is exactly its
first 100,000 characters followed by the fixed truncation marker, and the
endpoint still reports success (truncation is a policy, not an error).  In
particular a clean payload (left unchanged by sanitization) of more than
100,000 characters — such as one of 150,000 characters — persists as its own
first 100,000 characters plus the marker. -/
theorem save_truncation_spec (text : Option (List Char)) (props : List (String × JVal))
    (payload : List Char) (b : Bool)
    (hsel : selectContent text props = some payload)
    (hlen : 100000 < (sanitize_image_data payload).length) :
    savePageBranch text props b =
      some ⟨(sanitize_image_data payload).take 100000 ++ truncMarker, "success", ""⟩ ∧
    (sanitize_image_data payload = payload →
      savePageBranch text props b =
        some ⟨payload.take 100000 ++ truncMarker, "success", ""⟩) := by
  have hmain : savePageBranch text props b =
      some ⟨(sanitize_image_data payload).take 100000 ++ truncMarker, "success", ""⟩ := by
    unfold savePageBranch
    rw [hsel]
    simp only [Option.map_some']
    rw [truncateContent, if_pos hlen]
  refine ⟨hmain, fun hclean => ?_⟩
  rw [hmain, hclean]

theorem save_truncation_spec_witness :
    savePageBranch (some (List.replicate 150000 'a')) [] true =
      some ⟨(List.replicate 150000 'a').take 100000 ++ truncMarker, "success", ""⟩ := by
  have hplain : ∀ c ∈ List.replicate 150000 'a', plainChar c = true := by
    intro c hc
    rw [List.eq_of_mem_replicate hc]
    decide
  have hclean : sanitize_image_data (List.replicate 150000 'a') =
      List.replicate 150000 'a' := sanitize_plain _ hplain
  have hsel : selectContent (some (List.replicate 150000 'a')) [] =
      some (List.replicate 150000 'a') := rfl
  have hlen : 100000 < (sanitize_image_data (List.replicate 150000 'a')).length := by
    rw [hclean, List.length_replicate]
    norm_num
  exact (save_truncation_spec (some (List.replicate 150000 'a')) [] _ true hsel hlen).2 hclean

/-- C9: in the page branch of `save`, a failed append-write is silently
ignored — when `append_block` reports failure the response is identical to
the success case and still carries `status = "success"` (lines 766-770). -/
theorem append_failure_ignored_spec (text : Option (List Char))
    (props : List (String × JVal)) (out : PageSaveOutcome)
    (h : savePageBranch text props false = some out) :
    out.status = "success" ∧
      savePageBranch text props false = savePageBranch text props true := by
  constructor
  · unfold savePageBranch at h
    obtain ⟨c, _, hc⟩ := Option.map_eq_some'.mp h
    rw [← hc]
  · rfl

theorem append_failure_ignored_spec_witness :
    (PageSaveOutcome.mk "hi".toList "success" "").status = "success" ∧
      savePageBranch (some "hi".toList) [] false = savePageBranch (some "hi".toList) [] true :=
  append_failure_ignored_spec (some "hi".toList) [] ⟨"hi".toList, "success", ""⟩ (by decide)

/-! ### C7 -/

/-- C7: for a chat call with a non-empty history and a supplied (truthy)
reference context, the message list is exactly
`[system(time+instructions), system(reference_context), *history, user(task)]`:
the first message is a system message whose content begins with the injected
current-time line, the reference context is a separate synthetic system
message placed before the history, the history follows in original order, and
the final user turn carries the task text. -/
theorem chat_message_order_spec (now sys rc task : List Char) (hist : List ChatMsg)
    (hh : hist ≠ []) (hrc : rc ≠ []) :
    chat_flow_messages now sys (some rc) hist task =
      ChatMsg.mk "system" ("Current Time: ".toList ++ now ++ "\n\n".toList ++ sys) ::
      ChatMsg.mk "system" rc :: (hist ++ [ChatMsg.mk "user" task]) := by
  have hre : rc.isEmpty = false := by simp [List.isEmpty_iff, hrc]
  simp [chat_flow_messages, chat_build_messages, historyWithRef, timeInjected, hre]

theorem chat_message_order_spec_witness :
    chat_flow_messages "n".toList "s".toList (some "r".toList)
        [ChatMsg.mk "user" "h1".toList, ChatMsg.mk "assistant" "h2".toList] "t".toList =
      ChatMsg.mk "system" ("Current Time: ".toList ++ "n".toList ++ "\n\n".toList ++ "s".toList) ::
      ChatMsg.mk "system" "r".toList ::
      ([ChatMsg.mk "user" "h1".toList, ChatMsg.mk "assistant" "h2".toList] ++
        [ChatMsg.mk "user" "t".toList]) :=
  chat_message_order_spec "n".toList "s".toList "r".toList "t".toList
    [ChatMsg.mk "user" "h1".toList, ChatMsg.mk "assistant" "h2".toList]
    (by decide) (by decide)

/-! ### Lemmas about the retry loop -/

theorem genLoop_all_fail (attempts : Nat → AttemptOutcome) (model : List Char)
    (es : Nat → Exc) :
    ∀ (rem a : Nat),
      (∀ i, i ≤ rem → runAttempt model (attempts (a + i)) = Except.error (es (a + i))) →
      genLoop attempts model a rem =
        ⟨Except.error (genFailMsg ++ strExc (es (a + rem))),
          (List.range rem).map (fun i => 2 * (a + i + 1)), rem + 1⟩ := by
  intro rem
  induction rem with
  | zero =>
    intro a h
    have h0 := h 0 (Nat.le_refl 0)
    simp only [Nat.add_zero] at h0
    simp [genLoop, h0]
  | succ n ih =>
    intro a h
    have h0 := h 0 (Nat.zero_le _)
    simp only [Nat.add_zero] at h0
    have hrec := ih (a + 1) (by
      intro i hi
      have := h (i + 1) (by omega)
      have harith : a + (i + 1) = a + 1 + i := by omega
      rwa [harith] at this)
    simp only [genLoop, h0, hrec]
    simp only [RunTrace.mk.injEq]
    refine ⟨?_, ?_, trivial⟩
    · have harith : a + 1 + n = a + (n + 1) := by omega
      rw [harith]
    · rw [List.range_succ_eq_map, List.map_cons, List.map_map]
      refine congrArg₂ List.cons (by simp) ?_
      apply List.map_congr_left
      intro i _
      simp only [Function.comp_apply]
      omega

theorem genLoop_succeeds (attempts : Nat → AttemptOutcome) (model : List Char)
    (es : Nat → Exc) (r : GenResult) :
    ∀ (N a rem : Nat), N ≤ rem →
      (∀ i, i < N → runAttempt model (attempts (a + i)) = Except.error (es (a + i))) →
      runAttempt model (attempts (a + N)) = Except.ok r →
      genLoop attempts model a rem =
        ⟨Except.ok r, (List.range N).map (fun i => 2 * (a + i + 1)), N + 1⟩ := by
  intro N
  induction N with
  | zero =>
    intro a rem _ _ hsucc
    simp only [Nat.add_zero] at hsucc
    cases rem with
    | zero => simp [genLoop, hsucc]
    | succ m => simp [genLoop, hsucc]
  | succ n ih =>
    intro a rem hle hfail hsucc
    have h0 := hfail 0 (Nat.succ_pos n)
    simp only [Nat.add_zero] at h0
    cases rem with
    | zero => omega
    | succ m =>
      have hrec := ih (a + 1) m (by omega)
        (by
          intro i hi
          have := hfail (i + 1) (by omega)
          have harith : a + (i + 1) = a + 1 + i := by omega
          rwa [harith] at this)
        (by
          have harith : a + (n + 1) = a + 1 + n := by omega
          rwa [harith] at hsucc)
      simp only [genLoop, h0, hrec]
      simp only [RunTrace.mk.injEq]
      refine ⟨trivial, ?_, trivial⟩
      rw [List.range_succ_eq_map, List.map_cons, List.map_map]
      refine congrArg₂ List.cons (by simp) ?_
      apply List.map_congr_left
      intro i _
      simp only [Function.comp_apply]
      omega

/-! ### C2, C3, C4 -/

/-- C2: against a provider failing N times then succeeding, `generate_json`
returns the successful result after exactly the N deterministic backoff
delays `2*1, 2*2, …, 2*N` seconds when `max_retries ≥ N`; when
`max_retries < N` it raises the generation error after exactly
`max_retries + 1` attempts (with the `max_retries` delays observed before the
final attempt); and a response with empty content counts as a failure inside
an attempt, so it is never returned as a result. -/
theorem generate_json_retry_spec (attempts : Nat → AttemptOutcome) (model : List Char)
    (retries N : Nat) (es : Nat → Exc) (r : GenResult)
    (hfail : ∀ i, i < N → runAttempt model (attempts i) = Except.error (es i))
    (hsucc : runAttempt model (attempts N) = Except.ok r) :
    (N ≤ retries →
      generate_json_run attempts model retries =
        ⟨Except.ok r, (List.range N).map (fun i => 2 * (i + 1)), N + 1⟩) ∧
    (retries < N →
      generate_json_run attempts model retries =
        ⟨Except.error (genFailMsg ++ strExc (es retries)),
          (List.range retries).map (fun i => 2 * (i + 1)), retries + 1⟩) ∧
    (∀ usage cost, runAttempt model (AttemptOutcome.ok [] usage cost) =
      Except.error Exc.emptyContent) := by
  refine ⟨?_, ?_, ?_⟩
  · intro hle
    have h := genLoop_succeeds attempts model es r N 0 retries hle
      (by intro i hi; simpa using hfail i hi) (by simpa using hsucc)
    simpa using h
  · intro hlt
    have h := genLoop_all_fail attempts model es retries 0
      (by intro i hi; simpa using hfail i (by omega))
    simpa using h
  · intro usage cost
    rfl

/-- Demonstration provider for the C2 witness: two failures, then success. -/
def attemptsDemo : Nat → AttemptOutcome
  | 0 => .exc (.provider "p0".toList)
  | 1 => .exc (.timeout "p1".toList)
  | _ => .ok "ok".toList none none

/-- The exceptions observed for `attemptsDemo`. -/
def esDemo : Nat → Exc
  | 0 => .provider "p0".toList
  | _ => .timeout "p1".toList

theorem generate_json_retry_spec_witness :
    generate_json_run attemptsDemo "m".toList 3 =
      ⟨Except.ok ⟨"ok".toList, [], 0, "m".toList⟩, [2, 4], 3⟩ := by
  have hfail : ∀ i, i < 2 →
      runAttempt "m".toList (attemptsDemo i) = Except.error (esDemo i) := by
    intro i hi
    match i, hi with
    | 0, _ => rfl
    | 1, _ => rfl
  have hsucc : runAttempt "m".toList (attemptsDemo 2) =
      Except.ok ⟨"ok".toList, [], 0, "m".toList⟩ := rfl
  have h := (generate_json_retry_spec attemptsDemo "m".toList 3 2 esDemo
    ⟨"ok".toList, [], 0, "m".toList⟩ hfail hsucc).1 (by omega)
  exact h

/-- C3 counterexample: the claim says an all-timeouts run raises a dedicated
timeout subtype the caller can tell apart from a generic provider error.  In
the code every exhausted run raises the same
`RuntimeError("AI generation failed: " + str(e))`: the trace of a provider
that always times out is identical to the trace of one that always fails with
a non-timeout error carrying the same message, so no subtype distinction
exists. -/
theorem generate_json_timeout_cex :
    (generate_json_run (fun _ => AttemptOutcome.exc (Exc.timeout "boom".toList))
        "m".toList 0).result = Except.error ("AI generation failed: boom".toList) ∧
    generate_json_run (fun _ => AttemptOutcome.exc (Exc.timeout "boom".toList)) "m".toList 0 =
      generate_json_run (fun _ => AttemptOutcome.exc (Exc.provider "boom".toList))
        "m".toList 0 :=
  ⟨rfl, rfl⟩

/-- C3 amended: when every attempt times out, `generate_json` raises the
single generic error with message `AI generation failed: ` followed by the
last timeout's message — the same error value an always-failing non-timeout
provider with the same messages produces, so the timeout case is not
distinguishable by error type, only by whatever the embedded message text
happens to contain. -/
theorem generate_json_timeout_amended (model : List Char) (retries : Nat)
    (es : Nat → List Char) :
    generate_json_run (fun i => AttemptOutcome.exc (Exc.timeout (es i))) model retries =
      generate_json_run (fun i => AttemptOutcome.exc (Exc.provider (es i))) model retries ∧
    (generate_json_run (fun i => AttemptOutcome.exc (Exc.timeout (es i))) model
        retries).result = Except.error (genFailMsg ++ es retries) := by
  have ht := genLoop_all_fail (fun i => AttemptOutcome.exc (Exc.timeout (es i))) model
    (fun i => Exc.timeout (es i)) retries 0 (by intro i _; rfl)
  have hp := genLoop_all_fail (fun i => AttemptOutcome.exc (Exc.provider (es i))) model
    (fun i => Exc.provider (es i)) retries 0 (by intro i _; rfl)
  constructor
  · show genLoop (fun i => AttemptOutcome.exc (Exc.timeout (es i))) model 0 retries =
      genLoop (fun i => AttemptOutcome.exc (Exc.provider (es i))) model 0 retries
    rw [ht, hp]
    simp [strExc]
  · show (genLoop (fun i => AttemptOutcome.exc (Exc.timeout (es i))) model 0
      retries).result = Except.error (genFailMsg ++ es retries)
    rw [ht]
    simp [strExc]

/-- C4 counterexample: the claim says a response without usage metadata
yields the zero-filled structure; the code returns the empty dict instead
(`usage = response.usage.dict() if hasattr(response, 'usage') else {}`). -/
theorem usage_default_cex :
    generate_json_run (fun _ => AttemptOutcome.ok "x".toList none none) "m".toList 0 =
      ⟨Except.ok ⟨"x".toList, [], 0, "m".toList⟩, [], 1⟩ ∧
    (GenResult.mk "x".toList [] 0 "m".toList).usage ≠
      [(("prompt_tokens" : String), (0 : Int)), ("completion_tokens", 0),
        ("total_tokens", 0)] :=
  ⟨rfl, by decide⟩

/-- C4 amended: for an attempt that returns non-empty content, the call never
fails: the result carries the provider's usage dict unchanged when present
and the empty dict (not a zero-filled one) when the response has no usage
attribute, and cost 0.0 when cost computation raised. -/
theorem usage_default_amended (attempts : Nat → AttemptOutcome) (model content : List Char)
    (usage : Option (List (String × Int))) (cost : Option Rat) (retries : Nat)
    (hc : content ≠ [])
    (h0 : attempts 0 = AttemptOutcome.ok content usage cost) :
    generate_json_run attempts model retries =
      ⟨Except.ok ⟨content, usage.getD [], cost.getD 0, model⟩, [], 1⟩ := by
  have hrun : runAttempt model (attempts 0) =
      Except.ok ⟨content, usage.getD [], cost.getD 0, model⟩ := by
    rw [h0]
    simp [runAttempt, hc]
  cases retries with
  | zero => simp [generate_json_run, genLoop, hrun]
  | succ m => simp [generate_json_run, genLoop, hrun]

theorem usage_default_amended_witness :
    generate_json_run (fun _ => AttemptOutcome.ok "x".toList none none) "m".toList 5 =
      ⟨Except.ok ⟨"x".toList, [], 0, "m".toList⟩, [], 1⟩ :=
  usage_default_amended (fun _ => AttemptOutcome.ok "x".toList none none) "m".toList
    "x".toList none none 5 (by decide) rfl

/-! ### C10 -/

theorem mapOpt_length_get {α β : Type} (f : α → Option β) :
    ∀ (l : List α) (out : List β), mapOpt f l = some out →
      out.length = l.length ∧
      ∀ i (h1 : i < l.length) (h2 : i < out.length),
        f (l.get ⟨i, h1⟩) = some (out.get ⟨i, h2⟩) := by
  intro l
  induction l with
  | nil =>
    intro out h
    simp only [mapOpt, Option.some.injEq] at h
    subst h
    exact ⟨rfl, by intro i h1 _; simp at h1⟩
  | cons a rest ih =>
    intro out h
    simp only [mapOpt] at h
    cases hfa : f a with
    | none => rw [hfa] at h; simp at h
    | some b =>
      rw [hfa] at h
      simp only [Option.map_eq_some'] at h
      obtain ⟨bs, hbs, hout⟩ := h
      subst hout
      obtain ⟨hlen, hget⟩ := ih bs hbs
      refine ⟨by simp [hlen], ?_⟩
      intro i h1 h2
      cases i with
      | zero => simpa using hfa
      | succ j =>
        simp only [List.get_cons_succ]
        exact hget j (by simpa using h1) (by simpa using h2)

theorem processVal_untouched (v : JVal) (h : untouchedVal v = true) :
    processVal v = some v := by
  cases v with
  | obj fields =>
    simp only [untouchedVal, Bool.and_eq_true, Option.isNone_iff_eq_none] at h
    simp [processVal, processKeyField, h.1, h.2]
  | str s => rfl
  | num n => rfl
  | bool b => rfl
  | null => rfl
  | arr items => rfl

theorem processItem_noText (fields : List (String × JVal))
    (h : getKey "text" fields = none) :
    processItem (.obj fields) = some [.obj fields] := by
  simp [processItem, h]

/-- C10: the database branch of `save` only rewrites the string text content
of `title` and `rich_text` items.  A non-dict property value, or a dict value
with neither a `"rich_text"` nor a `"title"` key, passes to the external
`create_page` write unchanged (in its original position, with all keys kept
in order), and inside a `title`/`rich_text` array an item without a `"text"`
key is reproduced unchanged as a single item. -/
theorem save_frame_spec :
    (∀ v : JVal, untouchedVal v = true → processVal v = some v) ∧
    (∀ fields : List (String × JVal), getKey "text" fields = none →
      processItem (.obj fields) = some [.obj fields]) ∧
    (∀ (props out : List (String × JVal)), processProps props = some out →
      out.length = props.length ∧
      ∀ i (h1 : i < props.length) (h2 : i < out.length),
        untouchedVal (props.get ⟨i, h1⟩).2 = true →
        out.get ⟨i, h2⟩ = props.get ⟨i, h1⟩) := by
  refine ⟨processVal_untouched, processItem_noText, ?_⟩
  intro props out h
  obtain ⟨hlen, hget⟩ := mapOpt_length_get _ props out h
  refine ⟨hlen, ?_⟩
  intro i h1 h2 huntouched
  have hf := hget i h1 h2
  simp only [processVal_untouched _ huntouched, Option.map_some', Option.some.injEq] at hf
  rw [← hf, Prod.mk.eta]

theorem save_frame_spec_witness :
    processVal (JVal.num 5) = some (JVal.num 5) ∧
    processItem (JVal.obj [("k", JVal.null)]) = some [JVal.obj [("k", JVal.null)]] ∧
    [(("A" : String), JVal.num 1)].get ⟨0, Nat.zero_lt_one⟩ =
      [(("A" : String), JVal.num 1)].get ⟨0, Nat.zero_lt_one⟩ :=
  ⟨save_frame_spec.1 (JVal.num 5) rfl,
   save_frame_spec.2.1 [("k", JVal.null)] rfl,
   (save_frame_spec.2.2 [("A", JVal.num 1)] [("A", JVal.num 1)] rfl).2 0
     Nat.zero_lt_one Nat.zero_lt_one rfl⟩
